/-
Verification of the build-size dashboard's data-processing engine
(`csv-parser` module: `CSVParser` and `DataProcessor`).

The JavaScript source is shallowly embedded: JS `Map` objects become
ordered association lists with JS insertion-order semantics, JS numbers
arising from `parseInt(...) || 0` become `Int`, the fractional
computations (size-similarity ratio, percent change) become `ℚ`, and
fallible external loads (fetch + CSV parse) become `Option`-valued
loader functions passed as parameters.
-/
import Mathlib

/-! ### JS `Map` model

A JS `Map` iterates in key-insertion order; `set` on an existing key
replaces the value in place (keeping the key's position), otherwise it
appends; `delete` removes the (unique) entry with the key.  We model a
map as an ordered association list; on lists whose keys are unique —
which is every list a real `Map` can denote — the operations below
agree with the JS ones.
-/

/-! ### Character-level string primitives

The JS string primitives used by the source (`trim`, single-character
`split`, `join`, `toLowerCase`, numeric parsing) are re-implemented
here by structural recursion on the character list, so that every
definition in this development evaluates by kernel reduction.  Each
one mirrors the JS behaviour on the inputs the source feeds it.
-/

def isWhitespaceChar (c : Char) : Bool :=
  c = ' ' || c = '\t' || c = '\n' || c = '\r'

/-- JS `String.prototype.trim`. -/
def strTrim (s : String) : String :=
  String.mk (((s.toList.dropWhile isWhitespaceChar).reverse.dropWhile
    isWhitespaceChar).reverse)

def splitOnChar (sep : Char) : List Char → List (List Char)
  | [] => [[]]
  | c :: rest =>
    match splitOnChar sep rest with
    | [] => [[]]
    | field :: fields =>
      if c = sep then [] :: field :: fields else (c :: field) :: fields

/-- JS `String.prototype.split` with a one-character separator. -/
def strSplitOn (s : String) (sep : Char) : List String :=
  (splitOnChar sep s.toList).map String.mk

def joinWithChar (sep : Char) : List (List Char) → List Char
  | [] => []
  | [x] => x
  | x :: xs => x ++ sep :: joinWithChar sep xs

/-- JS `Array.prototype.join` with a one-character separator. -/
def strJoin (sep : Char) (l : List String) : String :=
  String.mk (joinWithChar sep (l.map String.toList))

/-- JS `String.prototype.toLowerCase` (ASCII, which covers the header
names the source compares). -/
def strToLower (s : String) : String :=
  String.mk (s.toList.map Char.toLower)

/-- The numeric value of an all-decimal-digit string, `none`
otherwise (the behaviour of JS `Number` on the integral version
components this development deals with). -/
def strToNatAll (s : String) : Option Nat :=
  if s.toList.isEmpty then none
  else if s.toList.all Char.isDigit then some (s.toList.foldl (fun acc c => acc * 10 + (c.toNat - '0'.toNat)) 0)
  else none

abbrev JsMap (α : Type) : Type := List (String × α)

namespace JsMap

def get {α : Type} : JsMap α → String → Option α
  | [], _ => none
  | p :: rest, k => if p.1 = k then some p.2 else get rest k

def has {α : Type} (m : JsMap α) (k : String) : Bool :=
  (m.get k).isSome

def set {α : Type} : JsMap α → String → α → JsMap α
  | [], k, v => [(k, v)]
  | p :: rest, k, v => if p.1 = k then (k, v) :: rest else p :: set rest k v

def delete {α : Type} : JsMap α → String → JsMap α
  | [], _ => []
  | p :: rest, k => if p.1 = k then rest else p :: delete rest k

def keys {α : Type} (m : JsMap α) : List String :=
  m.map (·.1)

def entries {α : Type} (m : JsMap α) : List (String × α) := m

end JsMap

namespace DataProcessor

/-! ### Path normalization

`normalizeFilePath` performs, in order:
`replace(/^(\.\.\/)+/, '')` (strip all leading `../` segments),
`replace(/^\.\//, '')` (strip a single leading `./`),
`replace(/^\/+/, '')` (strip all leading slashes);
`if (!filePath) return filePath` returns falsy input (the empty string)
unchanged.
-/

/-- Mirrors `replace(/^(\.\.\/)+/, '')`: repeatedly strip a leading `../`. -/
def dropDotDotSlash : List Char → List Char
  | c1 :: c2 :: c3 :: rest =>
    if c1 = '.' && c2 = '.' && c3 = '/' then dropDotDotSlash rest
    else c1 :: c2 :: c3 :: rest
  | l => l

/-- Mirrors `replace(/^\.\//, '')`: strip one leading `./`. -/
def dropDotSlash : List Char → List Char
  | c1 :: c2 :: rest =>
    if c1 = '.' && c2 = '/' then rest else c1 :: c2 :: rest
  | l => l

/-- Mirrors `replace(/^\/+/, '')`: strip all leading slashes. -/
def dropSlashes : List Char → List Char
  | c :: rest => if c = '/' then dropSlashes rest else c :: rest
  | [] => []

/-- Embeds `DataProcessor.normalizeFilePath`. -/
def normalizeFilePath (filePath : String) : String :=
  if filePath = "" then filePath
  else String.mk (dropSlashes (dropDotSlash (dropDotDotSlash filePath.toList)))

/-- Embeds `DataProcessor.getBasename`: last `/`-separated segment. -/
def getBasename (filePath : String) : String :=
  (strSplitOn filePath '/').getLastD ""

/-- Embeds `DataProcessor.getDirectoryPath`: all but the last `/`-separated
segment, joined; `|| '/'` turns an empty (falsy) result into `"/"`. -/
def getDirectoryPath (filePath : String) : String :=
  let joined := strJoin '/' ((strSplitOn filePath '/').dropLast)
  if joined = "" then "/" else joined

/-! ### `parseInt(...) || 0`

JS `parseInt` skips leading whitespace, accepts an optional sign, and
reads the longest leading run of decimal digits, yielding `NaN` when
there is none; `|| 0` then maps `NaN` (and `0` itself) to `0`.
-/

def digitsValAux : List Char → Nat → Nat
  | c :: rest, acc => if c.isDigit then digitsValAux rest (acc * 10 + (c.toNat - '0'.toNat)) else acc
  | [], acc => acc

def digitsVal : List Char → Option Nat
  | c :: rest => if c.isDigit then some (digitsValAux (c :: rest) 0) else none
  | [] => none

def parseIntOr0 (s : String) : Int :=
  match (strTrim s).toList with
  | '-' :: rest => match digitsVal rest with
    | some n => -(n : Int)
    | none => 0
  | '+' :: rest => match digitsVal rest with
    | some n => (n : Int)
    | none => 0
  | cs => match digitsVal cs with
    | some n => (n : Int)
    | none => 0

/-! ### Version comparison

`parseVersion` is `version.split('.').map(Number)`; for the dot-free
numeric components the spec admits, `Number` combined with the `|| 0`
applied at every use site coincides with the all-digit numeric value
defaulting to `0`.  The `compareVersions` loop runs `i` from `0` to
`max(a.length, b.length) - 1` comparing `a[i] || 0` with `b[i] || 0`
and returns `numA - numB` at the first difference — i.e. it compares
the two component lists zero-padded to equal length, position by
position.
-/

/-- Embeds `DataProcessor.parseVersion`. -/
def parseVersion (version : String) : List Nat :=
  (strSplitOn version '.').map (fun c => (strToNatAll c).getD 0)

/-- Zero-pad a component list on the right to length `n`. -/
def padTo (l : List Nat) (n : Nat) : List Nat :=
  l ++ List.replicate (n - l.length) 0

/-- Position-by-position comparison of two equal-length component
lists: the first unequal pair decides, by its difference. -/
def cmpComponents : List Nat → List Nat → Int
  | a :: as, b :: bs => if a = b then cmpComponents as bs else (a : Int) - (b : Int)
  | _, _ => 0

/-- Embeds `DataProcessor.compareVersions`. -/
def compareVersions (v1 v2 : String) : Int :=
  let a := parseVersion v1
  let b := parseVersion v2
  let n := max a.length b.length
  cmpComponents (padTo a n) (padTo b n)

/-- Embeds `DataProcessor.getVersionsInRange`: filter to the inclusive range,
then sort ascending by the comparator (JS `Array.prototype.sort` is
stable; we model it with insertion sort, which is stable). -/
def getVersionsInRange (allVersions : List String) (startVersion endVersion : String) :
    List String :=
  List.insertionSort (fun a b => compareVersions a b ≤ 0)
    (allVersions.filter (fun version =>
      decide (0 ≤ compareVersions version startVersion) &&
      decide (compareVersions version endVersion ≤ 0)))

end DataProcessor

/-! ### CSV parsing

A parsed row is a JS object mapping header name to field string; JS
objects keep first-insertion key order and a later assignment to an
existing key overwrites in place, which is exactly `JsMap.set`.  A
missing property reads as `undefined`; every consumer of a row field
feeds it to `parseInt`/`normalizeFilePath`, for which `undefined`
behaves like the empty string, so `rowGet` defaults to `""`.
-/

abbrev Row : Type := JsMap String

def rowGet (row : Row) (k : String) : String :=
  (JsMap.get row k).getD ""

namespace CSVParser

/-- The `CSVParser.parseCSVLine` character loop: `"` toggles `inQuotes`,
`,` outside quotes ends a field, anything else is appended to the
current field; the final field is pushed at the end. -/
def parseCSVLineAux : List Char → String → Bool → List String
  | [], current, _ => [current]
  | c :: rest, current, inQuotes =>
    if c = '"' then parseCSVLineAux rest current (!inQuotes)
    else if c = ',' && !inQuotes then current :: parseCSVLineAux rest "" inQuotes
    else parseCSVLineAux rest (current.push c) inQuotes

/-- Embeds `CSVParser.parseCSVLine`. -/
def parseCSVLine (line : String) : List String :=
  parseCSVLineAux line.toList "" false

/-- Mirrors `row[header.trim()] = values[index].trim()` over
`headers.forEach((header, index) => ...)`. -/
def buildRow (headers values : List String) : Row :=
  (headers.zip values).foldl (fun row hv => JsMap.set row (strTrim hv.1) (strTrim hv.2)) []

/-- The `for (let i = 1; ...)` loop of `parseCSV`: a data line
contributes a row exactly when its parsed field count equals the
header count; any other line is skipped. -/
def parseCSVRows (headers : List String) : List String → List Row
  | [] => []
  | line :: rest =>
    let values := parseCSVLine line
    if values.length = headers.length then
      buildRow headers values :: parseCSVRows headers rest
    else
      parseCSVRows headers rest

/-- Embeds `CSVParser.parseCSV` (the `async` wrapper suspends only on its
caller; the computation itself is pure). -/
def parseCSV (text : String) : List Row :=
  let lines := strSplitOn (strTrim text) '\n'
  let headers := strSplitOn (lines.headD "") ','
  parseCSVRows headers (lines.drop 1)

/-- Embeds `CSVParser.getFilenameColumn`: first trimmed header whose
lowercasing is `compileunits` or `filename`, else (`||`) the untrimmed
first header. -/
def getFilenameColumn (headers : List String) : String :=
  ((headers.map strTrim).find? (fun header =>
      (["compileunits", "filename"].contains (strToLower header)))).getD (headers.headD "")

end CSVParser

namespace DataProcessor

/-- Details recorded on a merged moved entry
(`{oldPath, newPath, displayName}`). -/
structure MoveDetails where
  oldPath : String
  newPath : String
  displayName : String
deriving DecidableEq, Repr

/-- The value stored in the per-metric maps of `processDataByMetric`:
`{size, compileUnit, originalPath}`, later possibly extended with
`moveInfo` by `detectFileMoves`. -/
structure Entry where
  size : Int
  compileUnit : String
  originalPath : String
  moveInfo : Option MoveDetails := none
deriving DecidableEq, Repr

/-- One element of `matchedMoves`. -/
structure Move where
  oldKey : String
  newKey : String
  oldValue : Entry
  newValue : Entry
  basename : String
deriving DecidableEq, Repr

/-- Embeds `DataProcessor.sizesAreSimilar`.  Two zero sizes are similar, one
zero size is not; otherwise `|size1 - size2| / ((size1 + size2) / 2)`
must not exceed the tolerance.  (When `size1 + size2 = 0` with both
nonzero, JS divides a positive number by zero giving `Infinity`, never
`≤ tolerance`; rational division by zero would give `0`, so that case
is made explicit.) -/
def sizesAreSimilar (size1 size2 : Int) (tolerance : ℚ := 1/10) : Bool :=
  if size1 = 0 && size2 = 0 then true
  else if size1 = 0 || size2 = 0 then false
  else if size1 + size2 = 0 then false
  else decide ((((size1 - size2).natAbs : ℚ)) / (((size1 : ℚ) + (size2 : ℚ)) / 2) ≤ tolerance)

/-- Keys of `m` absent from `other`, in `m`'s iteration order
(the `onlyInData1` / `onlyInData2` loops). -/
def onlyIn (m other : JsMap Entry) : List (String × Entry) :=
  m.filter (fun p => !(JsMap.has other p.1))

/-- The inner `for (const item2 of onlyInData2)` scan: first candidate
with equal basename and similar size wins (`break`); the matched
candidate is *not* removed from the pool. -/
def moveCandidate (onlyInData2 : List (String × Entry)) (item1 : String × Entry) :
    Option Move :=
  ((onlyInData2.find? (fun item2 =>
      decide (getBasename item1.1 = getBasename item2.1) &&
      sizesAreSimilar item1.2.size item2.2.size)).map
    (fun item2 =>
      { oldKey := item1.1, newKey := item2.1,
        oldValue := item1.2, newValue := item2.2,
        basename := getBasename item1.1 }))

/-- The `matchedMoves` list built by the nested scan of
`detectFileMoves`. -/
def matchedMoves (data1Map data2Map : JsMap Entry) : List Move :=
  (onlyIn data1Map data2Map).filterMap (moveCandidate (onlyIn data2Map data1Map))

/-- The `moveDetails` record created for a matched move: note that
`displayName` uses the directory parts of the (normalized) keys
`move.oldKey` / `move.newKey`, while `oldPath` / `newPath` are the raw
`originalPath`s. -/
def moveDetails (move : Move) : MoveDetails :=
  { oldPath := move.oldValue.originalPath,
    newPath := move.newValue.originalPath,
    displayName := move.basename ++ " (moved from " ++ getDirectoryPath move.oldKey
      ++ " to " ++ getDirectoryPath move.newKey ++ ")" }

/-- Body of the `for (const move of matchedMoves)` loop: delete the
old key from the before-map and the new key from the after-map, then
insert the canonical entry under the new key in both. -/
def processMove (acc : JsMap Entry × JsMap Entry) (move : Move) :
    JsMap Entry × JsMap Entry :=
  let details := moveDetails move
  (JsMap.set (JsMap.delete acc.1 move.oldKey) move.newKey
      { move.oldValue with moveInfo := some details },
   JsMap.set (JsMap.delete acc.2 move.newKey) move.newKey
      { move.newValue with moveInfo := some details })

structure MoveResult where
  mergedData1 : JsMap Entry
  mergedData2 : JsMap Entry
  moves : List Move
deriving Repr

/-- Embeds `DataProcessor.detectFileMoves`. -/
def detectFileMoves (data1Map data2Map : JsMap Entry) : MoveResult :=
  let moves := matchedMoves data1Map data2Map
  let merged := moves.foldl processMove (data1Map, data2Map)
  { mergedData1 := merged.1, mergedData2 := merged.2, moves := moves }

/-- One comparison record of `processDataByMetric`. -/
structure ComparisonEntry where
  compileUnit : String
  size1 : Int
  size2 : Int
  difference : Int
  percentChange : ℚ
  changeType : String
  metricType : String
  isMoved : Bool
  moveInfo : Option MoveDetails
  displayName : Option String
deriving DecidableEq, Repr

/-- The body of the `allKeys.forEach` loop of `processDataByMetric`,
for one key of the union. -/
def mkComparison (mergedData1 mergedData2 : JsMap Entry) (metricType : String)
    (changeThreshold : Int) (compileUnit : String) : ComparisonEntry :=
  let item1 := JsMap.get mergedData1 compileUnit
  let item2 := JsMap.get mergedData2 compileUnit
  let size1 : Int := match item1 with | some i => i.size | none => 0
  let size2 : Int := match item2 with | some i => i.size | none => 0
  let difference := size2 - size1
  let percentChange : ℚ :=
    if 0 < size1 then ((difference : ℚ) / (size1 : ℚ)) * 100
    else if 0 < size2 then 100 else 0
  let changeType :=
    if changeThreshold < |difference| then
      (if 0 < difference then "increased" else "decreased")
    else "unchanged"
  let moveInfo := (item1.bind (·.moveInfo)).or (item2.bind (·.moveInfo))
  { compileUnit := compileUnit, size1 := size1, size2 := size2,
    difference := difference, percentChange := percentChange,
    changeType := changeType, metricType := metricType,
    isMoved := moveInfo.isSome, moveInfo := moveInfo,
    displayName := moveInfo.map (·.displayName) }

/-- Mirrors `new Set([...mergedData1.keys(), ...mergedData2.keys()])` iterated
in insertion order: for maps with unique keys this is the keys of the
first map followed by the keys of the second map not already present. -/
def unionKeys (mergedData1 mergedData2 : JsMap Entry) : List String :=
  JsMap.keys mergedData1 ++
    (JsMap.keys mergedData2).filter (fun k => !((JsMap.keys mergedData1).contains k))

/-- The comparison-building phase of `processDataByMetric` (after move
detection, before sorting). -/
def compareMerged (mergedData1 mergedData2 : JsMap Entry) (metricType : String)
    (changeThreshold : Int) : List ComparisonEntry :=
  (unionKeys mergedData1 mergedData2).map
    (mkComparison mergedData1 mergedData2 metricType changeThreshold)

/-- Mirrors `comparisons.sort((a, b) => Math.abs(b.difference) - Math.abs(a.difference))`:
stable sort descending by absolute difference. -/
def sortComparisons (comparisons : List ComparisonEntry) : List ComparisonEntry :=
  List.insertionSort (fun a b => |b.difference| ≤ |a.difference|) comparisons

/-- The map-building phase of `processDataByMetric` for one dataset:
key is the normalized path, value records the metric, the key and the
raw path. -/
def buildMap (data : List Row) (metricType filenameColumn : String) : JsMap Entry :=
  data.foldl (fun m row =>
    let compileUnit := normalizeFilePath (rowGet row filenameColumn)
    JsMap.set m compileUnit
      { size := parseIntOr0 (rowGet row metricType),
        compileUnit := compileUnit,
        originalPath := rowGet row filenameColumn }) []

/-- Embeds `DataProcessor.processDataByMetric`. -/
def processDataByMetric (data1 data2 : List Row) (metricType : String)
    (changeThreshold : Int := 50) (filenameColumn : String := "compileunits") :
    List ComparisonEntry :=
  let data1Map := buildMap data1 metricType filenameColumn
  let data2Map := buildMap data2 metricType filenameColumn
  let moveDetection := detectFileMoves data1Map data2Map
  sortComparisons
    (compareMerged moveDetection.mergedData1 moveDetection.mergedData2
      metricType changeThreshold)

/-! ### Timeline -/

/-- One element of the `getFileTimeline` result; `fileExists` embeds
the JS field `exists`. -/
structure TimelinePoint where
  version : String
  size : Int
  fileExists : Bool
deriving DecidableEq, Repr

def csvUrl (platform version : String) : String :=
  platform ++ "/" ++ version ++ ".csv"

/-- The update of the `filenameColumn` loop variable for one version:
while it is still the default `compileunits` and the version's data is
non-empty, re-detect it from the first row's keys; a failed load
leaves it unchanged. -/
def timelineColStep (load : String → Option (List Row)) (platform column version : String) :
    String :=
  match load (csvUrl platform version) with
  | none => column
  | some csvData =>
    if 0 < csvData.length && column == "compileunits" then
      CSVParser.getFilenameColumn (JsMap.keys (csvData.headD []))
    else column

/-- Mirrors `csvData.find(row => normalizeFilePath(row[filenameColumn]) === normalizedFileName)`. -/
def findFileRow (csvData : List Row) (column normalizedFileName : String) : Option Row :=
  csvData.find? (fun row => decide (normalizeFilePath (rowGet row column) = normalizedFileName))

/-- The body of one iteration of the `for (const version of
versionsInRange)` loop of `getFileTimeline`: a failed load (the
`catch` branch) or an absent row yields `{size: 0, exists: false}`; a
found row yields its parsed metric value. -/
def timelinePoint (load : String → Option (List Row))
    (platform fileName metricType column version : String) : TimelinePoint :=
  match load (csvUrl platform version) with
  | none => { version := version, size := 0, fileExists := false }
  | some csvData =>
    match findFileRow csvData (timelineColStep load platform column version)
        (normalizeFilePath fileName) with
    | some row =>
      { version := version, size := parseIntOr0 (rowGet row metricType),
        fileExists := true }
    | none => { version := version, size := 0, fileExists := false }

/-- The `for (const version of versionsInRange)` loop of
`getFileTimeline`, threading the `filenameColumn` variable. -/
def timelineAux (load : String → Option (List Row)) (platform fileName metricType : String) :
    String → List String → List TimelinePoint
  | _, [] => []
  | column, version :: rest =>
    timelinePoint load platform fileName metricType column version ::
      timelineAux load platform fileName metricType
        (timelineColStep load platform column version) rest

/-- Embeds `DataProcessor.getFileTimeline`.  The analysis index (the fetched
`allVersions` array) and the per-version CSV loads are external
collaborators, passed in as `allVersions` and `load`; a load that
throws is `none`. -/
def getFileTimeline (load : String → Option (List Row)) (allVersions : List String)
    (fileName platform startVersion endVersion metricType : String) : List TimelinePoint :=
  timelineAux load platform fileName metricType "compileunits"
    (getVersionsInRange allVersions startVersion endVersion)

end DataProcessor

/-! ## Lemmas about the `JsMap` operations -/

namespace JsMap

variable {α : Type}

theorem get_set_self (m : JsMap α) (k : String) (v : α) :
    (m.set k v).get k = some v := by
  induction m with
  | nil => simp [set, get]
  | cons p rest ih =>
    by_cases h : p.1 = k
    · simp [set, get, h]
    · simp [set, get, h, ih]

theorem get_set_ne (m : JsMap α) {k k' : String} (v : α) (h : k' ≠ k) :
    (m.set k v).get k' = m.get k' := by
  induction m with
  | nil =>
    simp only [set, get, if_neg (Ne.symm h)]
  | cons p rest ih =>
    by_cases hp : p.1 = k
    · subst hp
      simp only [set, if_pos rfl, get, if_neg (Ne.symm h)]
    · simp only [set, if_neg hp, get]
      by_cases hp' : p.1 = k'
      · simp [hp']
      · simp [hp', ih]

theorem get_delete_ne (m : JsMap α) {k k' : String} (h : k' ≠ k) :
    (m.delete k).get k' = m.get k' := by
  induction m with
  | nil => simp [delete]
  | cons p rest ih =>
    by_cases hp : p.1 = k
    · simp only [delete, if_pos hp]
      rw [get, if_neg (by rw [hp]; exact Ne.symm h)]
    · simp only [delete, if_neg hp, get]
      by_cases hp' : p.1 = k'
      · simp [hp']
      · simp [hp', ih]

theorem get_eq_none_iff (m : JsMap α) (k : String) :
    m.get k = none ↔ k ∉ m.keys := by
  induction m with
  | nil => simp [get, keys]
  | cons p rest ih =>
    simp only [get, keys, List.map_cons, List.mem_cons]
    by_cases hp : p.1 = k
    · simp [hp]
    · simp only [if_neg hp, ih, keys]
      constructor
      · intro hn hor
        rcases hor with h1 | h2
        · exact hp h1.symm
        · exact hn h2
      · intro hn hmem
        exact hn (Or.inr hmem)

theorem has_iff_mem_keys (m : JsMap α) (k : String) :
    m.has k = true ↔ k ∈ m.keys := by
  unfold has
  cases hg : m.get k with
  | none =>
    simp only [Option.isSome_none]
    constructor
    · intro hh; cases hh
    · intro hmem
      exact absurd hmem (by exact (get_eq_none_iff m k).mp hg)
  | some v =>
    simp only [Option.isSome_some, true_iff]
    by_contra hmem
    rw [(get_eq_none_iff m k).mpr hmem] at hg
    cases hg

theorem has_eq_false_iff (m : JsMap α) (k : String) :
    m.has k = false ↔ k ∉ m.keys := by
  rw [← Bool.not_eq_true, not_iff_not]
  exact has_iff_mem_keys m k

theorem get_delete_self (m : JsMap α) (k : String) (hnd : m.keys.Nodup) :
    (m.delete k).get k = none := by
  induction m with
  | nil => simp [delete, get]
  | cons p rest ih =>
    simp only [keys, List.map_cons, List.nodup_cons] at hnd
    by_cases hp : p.1 = k
    · subst hp
      simp only [delete, if_pos rfl]
      rw [get_eq_none_iff]
      exact hnd.1
    · simp only [delete, if_neg hp, get, if_neg hp]
      exact ih hnd.2

theorem get_delete_none (m : JsMap α) (k k' : String) (h : m.get k = none) :
    (m.delete k').get k = none := by
  induction m with
  | nil => simpa [delete] using h
  | cons p rest ih =>
    by_cases hp : p.1 = k
    · rw [get, if_pos hp] at h
      cases h
    · rw [get, if_neg hp] at h
      by_cases hp' : p.1 = k'
      · simp only [delete, if_pos hp']
        exact h
      · simp only [delete, if_neg hp', get, if_neg hp]
        exact ih h

theorem keys_set (m : JsMap α) (k : String) (v : α) :
    (m.set k v).keys = if m.has k then m.keys else m.keys ++ [k] := by
  induction m with
  | nil => simp [set, keys, has, get]
  | cons p rest ih =>
    by_cases hp : p.1 = k
    · subst hp
      simp [set, keys, has, get]
    · have hhas : JsMap.has (p :: rest) k = JsMap.has rest k := by
        simp [has, get, hp]
      simp only [set, if_neg hp, keys, List.map_cons, hhas] at *
      rw [ih]
      by_cases hr : JsMap.has rest k = true
      · simp [hr]
      · simp only [Bool.not_eq_true] at hr
        simp [hr]

theorem nodup_keys_set (m : JsMap α) (k : String) (v : α) (hnd : m.keys.Nodup) :
    (m.set k v).keys.Nodup := by
  rw [keys_set]
  by_cases hh : m.has k = true
  · rw [if_pos hh]
    exact hnd
  · rw [if_neg hh]
    rw [List.nodup_append]
    refine ⟨hnd, List.nodup_singleton k, fun a ha hb => ?_⟩
    rw [List.mem_singleton] at hb
    exact hh ((has_iff_mem_keys m k).mpr (hb ▸ ha))

theorem keys_delete_sublist (m : JsMap α) (k : String) :
    List.Sublist (m.delete k).keys m.keys := by
  induction m with
  | nil => simp [delete]
  | cons p rest ih =>
    by_cases hp : p.1 = k
    · simp only [delete, if_pos hp, keys, List.map_cons]
      exact List.Sublist.cons _ (List.Sublist.refl _)
    · simp only [delete, if_neg hp, keys, List.map_cons]
      exact List.Sublist.cons₂ _ ih

theorem nodup_keys_delete (m : JsMap α) (k : String) (hnd : m.keys.Nodup) :
    (m.delete k).keys.Nodup :=
  (keys_delete_sublist m k).nodup hnd

end JsMap

/-! ## Lemmas about version comparison -/

namespace DataProcessor

theorem cmpComponents_self : ∀ l : List Nat, cmpComponents l l = 0
  | [] => rfl
  | _ :: as => by simp [cmpComponents, cmpComponents_self as]

theorem cmpComponents_neg : ∀ x y : List Nat, cmpComponents y x = -cmpComponents x y
  | [], [] => rfl
  | [], _ :: _ => rfl
  | _ :: _, [] => rfl
  | a :: as, b :: bs => by
    by_cases h : a = b
    · subst h
      simpa [cmpComponents] using cmpComponents_neg as bs
    · simp only [cmpComponents, if_neg h, if_neg (Ne.symm h)]
      omega

theorem cmpComponents_eq_zero_iff :
    ∀ x y : List Nat, x.length = y.length → (cmpComponents x y = 0 ↔ x = y)
  | [], [], _ => by simp [cmpComponents]
  | a :: as, b :: bs, h => by
    simp only [List.length_cons, Nat.succ_inj] at h
    by_cases hab : a = b
    · subst hab
      simpa [cmpComponents] using cmpComponents_eq_zero_iff as bs h
    · simp only [cmpComponents, if_neg hab, List.cons.injEq]
      constructor
      · intro hz
        exact absurd (by omega : a = b) hab
      · rintro ⟨hh, -⟩
        exact absurd hh hab

theorem cmpComponents_append_same :
    ∀ x y z : List Nat, x.length = y.length →
      cmpComponents (x ++ z) (y ++ z) = cmpComponents x y
  | [], [], z, _ => by simpa [cmpComponents] using cmpComponents_self z
  | a :: as, b :: bs, z, h => by
    simp only [List.length_cons, Nat.succ_inj] at h
    by_cases hab : a = b
    · subst hab
      simpa [cmpComponents] using cmpComponents_append_same as bs z h
    · simp [cmpComponents, hab]

theorem cmpComponents_trans :
    ∀ x y z : List Nat, x.length = y.length → y.length = z.length →
      cmpComponents x y ≤ 0 → cmpComponents y z ≤ 0 → cmpComponents x z ≤ 0
  | [], [], [], _, _, _, _ => by simp [cmpComponents]
  | a :: as, b :: bs, c :: cs, hxy, hyz, h1, h2 => by
    simp only [List.length_cons, Nat.succ_inj] at hxy hyz
    by_cases hab : a = b <;> by_cases hbc : b = c
    · subst hab; subst hbc
      simp only [cmpComponents, if_pos rfl] at h1 h2 ⊢
      exact cmpComponents_trans as bs cs hxy hyz h1 h2
    · subst hab
      simp only [cmpComponents, if_pos rfl, if_neg hbc] at h2 ⊢
      exact h2
    · subst hbc
      simp only [cmpComponents, if_neg hab] at h1 ⊢
      exact h1
    · simp only [cmpComponents, if_neg hab, if_neg hbc] at h1 h2
      have hac : a ≠ c := by omega
      simp only [cmpComponents, if_neg hac]
      omega

theorem padTo_length (l : List Nat) (n : Nat) (h : l.length ≤ n) :
    (padTo l n).length = n := by
  simp [padTo]
  omega

theorem padTo_append (l : List Nat) (n N : Nat) (h1 : l.length ≤ n) (h2 : n ≤ N) :
    padTo l N = padTo l n ++ List.replicate (N - n) 0 := by
  simp only [padTo, List.append_assoc, ← List.replicate_add]
  congr 2
  omega

/-- The comparator `compareVersions` is insensitive to the common padding length, as
long as it covers both component lists. -/
theorem compareVersions_eq_padN (v1 v2 : String) (N : Nat)
    (h : max (parseVersion v1).length (parseVersion v2).length ≤ N) :
    compareVersions v1 v2 =
      cmpComponents (padTo (parseVersion v1) N) (padTo (parseVersion v2) N) := by
  set a := parseVersion v1 with ha
  set b := parseVersion v2 with hb
  set n := max a.length b.length with hn
  have h1 : a.length ≤ n := le_max_left _ _
  have h2 : b.length ≤ n := le_max_right _ _
  have hnN : n ≤ N := h
  rw [show compareVersions v1 v2 = cmpComponents (padTo a n) (padTo b n) from rfl,
    padTo_append a n N h1 hnN, padTo_append b n N h2 hnN,
    cmpComponents_append_same _ _ _ (by rw [padTo_length a n h1, padTo_length b n h2])]

theorem compareVersions_self (v : String) : compareVersions v v = 0 := by
  simpa [compareVersions] using cmpComponents_self _

theorem compareVersions_neg (v1 v2 : String) :
    compareVersions v2 v1 = -compareVersions v1 v2 := by
  simp only [compareVersions]
  rw [Nat.max_comm]
  exact cmpComponents_neg _ _

theorem compareVersions_trans (v1 v2 v3 : String)
    (h1 : compareVersions v1 v2 ≤ 0) (h2 : compareVersions v2 v3 ≤ 0) :
    compareVersions v1 v3 ≤ 0 := by
  set N := max (parseVersion v1).length
    (max (parseVersion v2).length (parseVersion v3).length) with hN
  have hb1 : (parseVersion v1).length ≤ N := le_max_left _ _
  have hb2 : (parseVersion v2).length ≤ N :=
    le_trans (le_max_left _ _) (le_max_right _ _)
  have hb3 : (parseVersion v3).length ≤ N :=
    le_trans (le_max_right _ _) (le_max_right _ _)
  have e12 := compareVersions_eq_padN v1 v2 N (max_le hb1 hb2)
  have e23 := compareVersions_eq_padN v2 v3 N (max_le hb2 hb3)
  have e13 := compareVersions_eq_padN v1 v3 N (max_le hb1 hb3)
  rw [e13]
  exact cmpComponents_trans _ _ _
    (by rw [padTo_length _ _ hb1, padTo_length _ _ hb2])
    (by rw [padTo_length _ _ hb2, padTo_length _ _ hb3])
    (e12 ▸ h1) (e23 ▸ h2)

theorem compareVersions_total (v1 v2 : String) :
    compareVersions v1 v2 ≤ 0 ∨ compareVersions v2 v1 ≤ 0 := by
  rw [compareVersions_neg v2 v1]
  omega

theorem compareVersions_eq_zero_iff (v1 v2 : String) :
    compareVersions v1 v2 = 0 ↔
      padTo (parseVersion v1) (max (parseVersion v1).length (parseVersion v2).length) =
      padTo (parseVersion v2) (max (parseVersion v1).length (parseVersion v2).length) := by
  refine (cmpComponents_eq_zero_iff _ _ ?_)
  rw [padTo_length _ _ (le_max_left _ _), padTo_length _ _ (le_max_right _ _)]

end DataProcessor

/-! ## Normalization fixpoint lemmas -/

namespace DataProcessor

theorem dropDotDotSlash_eq_self (l : List Char)
    (h : List.isPrefixOf ['.', '.', '/'] l = false) : dropDotDotSlash l = l := by
  match l with
  | [] => rfl
  | [c1] => rfl
  | [c1, c2] => rfl
  | c1 :: c2 :: c3 :: rest =>
    show (if c1 = '.' && c2 = '.' && c3 = '/' then dropDotDotSlash rest
      else c1 :: c2 :: c3 :: rest) = c1 :: c2 :: c3 :: rest
    apply if_neg
    intro hb
    simp only [Bool.and_eq_true, decide_eq_true_eq] at hb
    obtain ⟨⟨e1, e2⟩, e3⟩ := hb
    subst e1; subst e2; subst e3
    simp [List.isPrefixOf] at h

theorem dropDotSlash_eq_self (l : List Char)
    (h : List.isPrefixOf ['.', '/'] l = false) : dropDotSlash l = l := by
  match l with
  | [] => rfl
  | [c1] => rfl
  | c1 :: c2 :: rest =>
    show (if c1 = '.' && c2 = '/' then rest else c1 :: c2 :: rest) = c1 :: c2 :: rest
    apply if_neg
    intro hb
    simp only [Bool.and_eq_true, decide_eq_true_eq] at hb
    obtain ⟨e1, e2⟩ := hb
    subst e1; subst e2
    simp [List.isPrefixOf] at h

theorem dropSlashes_eq_self (l : List Char)
    (h : List.isPrefixOf ['/'] l = false) : dropSlashes l = l := by
  match l with
  | [] => rfl
  | c :: rest =>
    show (if c = '/' then dropSlashes rest else c :: rest) = c :: rest
    apply if_neg
    intro hb
    subst hb
    simp [List.isPrefixOf] at h

/-- A string whose first characters admit none of the three strips is
a fixpoint of `normalizeFilePath`. -/
theorem normalizeFilePath_eq_self (r : String)
    (h1 : List.isPrefixOf ['.', '.', '/'] r.toList = false)
    (h2 : List.isPrefixOf ['.', '/'] r.toList = false)
    (h3 : List.isPrefixOf ['/'] r.toList = false) :
    normalizeFilePath r = r := by
  by_cases hr : r = ""
  · simp [normalizeFilePath, hr]
  · simp only [normalizeFilePath, if_neg hr]
    rw [dropDotDotSlash_eq_self _ h1, dropDotSlash_eq_self _ h2, dropSlashes_eq_self _ h3]
    rfl

/-! ### Move-detection lemmas -/

/-- Everything `matchedMoves` records comes from a pair of
symmetric-difference entries whose basenames match and whose sizes are
similar. -/
theorem matchedMoves_spec (m1 m2 : JsMap Entry) :
    ∀ mv ∈ matchedMoves m1 m2,
      mv.oldKey ∈ JsMap.keys m1 ∧ mv.oldKey ∉ JsMap.keys m2 ∧
      mv.newKey ∈ JsMap.keys m2 ∧ mv.newKey ∉ JsMap.keys m1 ∧
      getBasename mv.oldKey = getBasename mv.newKey ∧
      sizesAreSimilar mv.oldValue.size mv.newValue.size = true := by
  intro mv hmv
  rw [matchedMoves] at hmv
  obtain ⟨p1, hp1, hcand⟩ := List.mem_filterMap.mp hmv
  unfold moveCandidate at hcand
  rcases hfind : List.find? (fun item2 =>
      decide (getBasename p1.1 = getBasename item2.1) &&
      sizesAreSimilar p1.2.size item2.2.size) (onlyIn m2 m1) with _ | p2
  · rw [hfind] at hcand
    cases hcand
  · rw [hfind] at hcand
    have hmk := Option.some.inj hcand
    have hp2mem := List.mem_of_find?_eq_some hfind
    have hp2pred := List.find?_some hfind
    simp only [Bool.and_eq_true, decide_eq_true_eq] at hp2pred
    have h1 := List.mem_filter.mp hp1
    have h2 := List.mem_filter.mp hp2mem
    subst hmk
    refine ⟨?_, ?_, ?_, ?_, hp2pred.1, hp2pred.2⟩
    · exact List.mem_map_of_mem (fun p => p.1) h1.1
    · rw [← JsMap.has_eq_false_iff]
      simpa using h1.2
    · exact List.mem_map_of_mem (fun p => p.1) h2.1
    · rw [← JsMap.has_eq_false_iff]
      simpa using h2.2

/-- Keys touched by no move of the list are bound identically after
the merge loop. -/
theorem foldl_processMove_get_frame :
    ∀ (moves : List Move) (acc : JsMap Entry × JsMap Entry) (k : String),
      (∀ mv ∈ moves, mv.oldKey ≠ k ∧ mv.newKey ≠ k) →
      (moves.foldl processMove acc).1.get k = acc.1.get k ∧
      (moves.foldl processMove acc).2.get k = acc.2.get k
  | [], _, _, _ => ⟨rfl, rfl⟩
  | mv :: tl, acc, k, h => by
    have hmv := h mv (List.mem_cons_self _ _)
    have ih := foldl_processMove_get_frame tl (processMove acc mv) k
      (fun mv' hmv' => h mv' (List.mem_cons_of_mem _ hmv'))
    rw [List.foldl_cons]
    refine ⟨ih.1.trans ?_, ih.2.trans ?_⟩
    · show (JsMap.set (JsMap.delete acc.1 mv.oldKey) mv.newKey _).get k = acc.1.get k
      rw [JsMap.get_set_ne _ _ (Ne.symm hmv.2), JsMap.get_delete_ne _ (Ne.symm hmv.1)]
    · show (JsMap.set (JsMap.delete acc.2 mv.newKey) mv.newKey _).get k = acc.2.get k
      rw [JsMap.get_set_ne _ _ (Ne.symm hmv.2), JsMap.get_delete_ne _ (Ne.symm hmv.2)]

/-- A key absent from the before-map stays absent as long as no move
inserts at it. -/
theorem foldl_processMove_get_none :
    ∀ (moves : List Move) (acc : JsMap Entry × JsMap Entry) (k : String),
      (∀ mv ∈ moves, mv.newKey ≠ k) → acc.1.get k = none →
      (moves.foldl processMove acc).1.get k = none
  | [], _, _, _, hnone => hnone
  | mv :: tl, acc, k, h, hnone => by
    rw [List.foldl_cons]
    apply foldl_processMove_get_none tl _ k
      (fun mv' hmv' => h mv' (List.mem_cons_of_mem _ hmv'))
    show (JsMap.set (JsMap.delete acc.1 mv.oldKey) mv.newKey _).get k = none
    rw [JsMap.get_set_ne _ _ (Ne.symm (h mv (List.mem_cons_self _ _)))]
    exact JsMap.get_delete_none _ k _ hnone

theorem processMove_nodup (acc : JsMap Entry × JsMap Entry) (mv : Move)
    (h1 : (JsMap.keys acc.1).Nodup) (h2 : (JsMap.keys acc.2).Nodup) :
    (JsMap.keys (processMove acc mv).1).Nodup ∧ (JsMap.keys (processMove acc mv).2).Nodup :=
  ⟨JsMap.nodup_keys_set _ _ _ (JsMap.nodup_keys_delete _ _ h1),
   JsMap.nodup_keys_set _ _ _ (JsMap.nodup_keys_delete _ _ h2)⟩

/-- The merge loop, for a move list drawn from the two symmetric
differences with pairwise-distinct after-keys: each move's before-key
is gone from the merged before-map and its canonical entry is present
under the after-key in both merged maps. -/
theorem foldl_processMove_spec (m1 m2 : JsMap Entry) :
    ∀ (moves : List Move) (acc : JsMap Entry × JsMap Entry),
      (JsMap.keys acc.1).Nodup → (JsMap.keys acc.2).Nodup →
      (∀ mv ∈ moves, mv.oldKey ∈ JsMap.keys m1 ∧ mv.oldKey ∉ JsMap.keys m2 ∧
        mv.newKey ∈ JsMap.keys m2 ∧ mv.newKey ∉ JsMap.keys m1) →
      (moves.map (fun mv => mv.newKey)).Nodup →
      ∀ mv ∈ moves,
        (moves.foldl processMove acc).1.get mv.oldKey = none ∧
        (moves.foldl processMove acc).1.get mv.newKey =
          some { mv.oldValue with moveInfo := some (moveDetails mv) } ∧
        (moves.foldl processMove acc).2.get mv.newKey =
          some { mv.newValue with moveInfo := some (moveDetails mv) } := by
  intro moves
  induction moves with
  | nil =>
    intro acc _ _ _ _ mv hmv
    cases hmv
  | cons hd tl ih =>
    intro acc hn1 hn2 hA hnd mv hmv
    rw [List.foldl_cons]
    have hAhd := hA hd (List.mem_cons_self _ _)
    rw [List.map_cons, List.nodup_cons] at hnd
    have hstep := processMove_nodup acc hd hn1 hn2
    rcases List.mem_cons.mp hmv with rfl | hmemtl
    · have hframe : ∀ mv' ∈ tl, mv'.oldKey ≠ mv.newKey ∧ mv'.newKey ≠ mv.newKey := by
        intro mv' h'
        have hA' := hA mv' (List.mem_cons_of_mem _ h')
        constructor
        · intro he
          exact hAhd.2.2.2 (he ▸ hA'.1)
        · intro he
          exact hnd.1 (he ▸ List.mem_map_of_mem (fun mv => mv.newKey) h')
      have hpres := foldl_processMove_get_frame tl (processMove acc mv) mv.newKey hframe
      have hne : mv.oldKey ≠ mv.newKey := by
        intro he
        exact hAhd.2.2.2 (he ▸ hAhd.1)
      refine ⟨?_, ?_, ?_⟩
      · apply foldl_processMove_get_none tl _ mv.oldKey
        · intro mv' h'
          have hA' := hA mv' (List.mem_cons_of_mem _ h')
          intro he
          exact hA'.2.2.2 (he ▸ hAhd.1)
        · show (JsMap.set (JsMap.delete acc.1 mv.oldKey) mv.newKey _).get mv.oldKey = none
          rw [JsMap.get_set_ne _ _ hne]
          exact JsMap.get_delete_self acc.1 mv.oldKey hn1
      · rw [hpres.1]
        exact JsMap.get_set_self _ _ _
      · rw [hpres.2]
        exact JsMap.get_set_self _ _ _
    · exact ih (processMove acc hd) hstep.1 hstep.2
        (fun mv' h' => hA mv' (List.mem_cons_of_mem _ h')) hnd.2 mv hmemtl

/-- The test `sizesAreSimilar` never relates one zero size with one nonzero
size. -/
theorem sizesAreSimilar_zero_iff (s1 s2 : Int) (h : sizesAreSimilar s1 s2 = true) :
    s1 = 0 ↔ s2 = 0 := by
  by_cases ha : s1 = 0 <;> by_cases hb : s2 = 0 <;>
    simp [sizesAreSimilar, ha, hb] at h ⊢

/-- For the non-negative sizes the pipeline produces,
`sizesAreSimilar` is exactly the spec's ratio test with its two zero
special cases. -/
theorem sizesAreSimilar_iff (size1 size2 : Int) (h1 : 0 ≤ size1) (h2 : 0 ≤ size2) :
    sizesAreSimilar size1 size2 = true ↔
      ((size1 = 0 ∧ size2 = 0) ∨
       (size1 ≠ 0 ∧ size2 ≠ 0 ∧
         (((size1 - size2).natAbs : ℚ)) / (((size1 : ℚ) + (size2 : ℚ)) / 2) ≤ 1/10)) := by
  by_cases ha : size1 = 0
  · by_cases hb : size2 = 0
    · simp [sizesAreSimilar, ha, hb]
    · simp [sizesAreSimilar, ha, hb]
  · by_cases hb : size2 = 0
    · simp [sizesAreSimilar, ha, hb]
    · have hne : ¬(size1 + size2 = 0) := by omega
      simp [sizesAreSimilar, ha, hb, hne]

/-! ### Comparator lemmas -/

/-- The classification split of the `allKeys.forEach` body, isolated:
`unchanged` exactly when `|difference|` does not exceed the threshold,
otherwise the sign decides. -/
theorem changeType_split (d t : Int) :
    ((if t < |d| then (if 0 < d then "increased" else "decreased")
      else "unchanged") = "unchanged" ↔ |d| ≤ t) ∧
    (t < |d| →
      (0 < d → (if t < |d| then (if 0 < d then "increased" else "decreased")
        else "unchanged") = "increased") ∧
      (d < 0 → (if t < |d| then (if 0 < d then "increased" else "decreased")
        else "unchanged") = "decreased")) := by
  by_cases hc : t < |d|
  · rw [if_pos hc]
    by_cases hd : 0 < d
    · rw [if_pos hd]
      refine ⟨?_, fun _ => ⟨fun _ => rfl, fun hneg => absurd hneg (by omega)⟩⟩
      constructor
      · intro h
        exact absurd h (by decide)
      · intro h
        omega
    · rw [if_neg hd]
      refine ⟨?_, fun _ => ⟨fun hpos => absurd hpos hd, fun _ => rfl⟩⟩
      constructor
      · intro h
        exact absurd h (by decide)
      · intro h
        omega
  · rw [if_neg hc]
    exact ⟨⟨fun _ => by omega, fun _ => rfl⟩, fun h => absurd h hc⟩

theorem countP_beq_eq_one_iff {l : List String} (hnd : l.Nodup) (k : String) :
    l.countP (fun x => x == k) = if k ∈ l then 1 else 0 := by
  induction l with
  | nil => simp
  | cons a l ih =>
    rw [List.nodup_cons] at hnd
    rw [List.countP_cons]
    by_cases hak : a = k
    · subst hak
      simp [hnd.1, ih hnd.2]
    · simp only [List.mem_cons]
      have hbeq : (a == k) = false := by
        simpa using hak
      have hka : ¬ k = a := fun h => hak h.symm
      simp [hbeq, ih hnd.2, hka]

theorem unionKeys_nodup (m1 m2 : JsMap Entry)
    (h1 : (JsMap.keys m1).Nodup) (h2 : (JsMap.keys m2).Nodup) :
    (unionKeys m1 m2).Nodup := by
  rw [unionKeys, List.nodup_append]
  refine ⟨h1, h2.filter _, fun a ha hb => ?_⟩
  have hcon := (List.mem_filter.mp hb).2
  have : a ∉ JsMap.keys m1 := by
    simpa using hcon
  exact this ha

theorem mem_unionKeys (m1 m2 : JsMap Entry) (k : String) :
    k ∈ unionKeys m1 m2 ↔ k ∈ JsMap.keys m1 ∨ k ∈ JsMap.keys m2 := by
  rw [unionKeys, List.mem_append]
  constructor
  · rintro (h | h)
    · exact Or.inl h
    · exact Or.inr (List.mem_filter.mp h).1
  · rintro (h | h)
    · exact Or.inl h
    · by_cases hk : k ∈ JsMap.keys m1
      · exact Or.inl hk
      · refine Or.inr (List.mem_filter.mpr ⟨h, ?_⟩)
        simpa using hk

/-! ### CSV parser lemmas -/

end DataProcessor

namespace CSVParser

theorem parseCSVRows_eq_filterMap (headers : List String) :
    ∀ lines : List String,
      parseCSVRows headers lines = lines.filterMap (fun line =>
        if (parseCSVLine line).length = headers.length
        then some (buildRow headers (parseCSVLine line)) else none)
  | [] => rfl
  | line :: rest => by
    rw [parseCSVRows, List.filterMap_cons]
    by_cases h : (parseCSVLine line).length = headers.length
    · rw [if_pos h, if_pos h, parseCSVRows_eq_filterMap headers rest]
    · rw [if_neg h, if_neg h, parseCSVRows_eq_filterMap headers rest]

theorem parseCSVRows_length (headers : List String) :
    ∀ lines : List String,
      (parseCSVRows headers lines).length = lines.countP
        (fun line => decide ((parseCSVLine line).length = headers.length))
  | [] => rfl
  | line :: rest => by
    rw [parseCSVRows, List.countP_cons]
    by_cases h : (parseCSVLine line).length = headers.length
    · rw [if_pos h]
      simp [h, parseCSVRows_length headers rest]
    · rw [if_neg h]
      simp [h, parseCSVRows_length headers rest]

end CSVParser

namespace DataProcessor

/-! ### Timeline lemmas -/

/-- The value of the `filenameColumn` loop variable of
`getFileTimeline` just before the `i`-th iteration. -/
def timelineColBefore (load : String → Option (List Row)) (platform : String) :
    String → List String → Nat → String
  | column, _, 0 => column
  | column, [], _ + 1 => column
  | column, v :: rest, i + 1 =>
    timelineColBefore load platform (timelineColStep load platform column v) rest i

theorem timelinePoint_version (load : String → Option (List Row))
    (platform fileName metricType column version : String) :
    (timelinePoint load platform fileName metricType column version).version = version := by
  rcases hload : load (csvUrl platform version) with _ | csvData
  · simp [timelinePoint, hload]
  · rcases hfind : findFileRow csvData (timelineColStep load platform column version)
        (normalizeFilePath fileName) with _ | row
    · simp [timelinePoint, hload, hfind]
    · simp [timelinePoint, hload, hfind]

theorem timelinePoint_absent_size (load : String → Option (List Row))
    (platform fileName metricType column version : String)
    (h : (timelinePoint load platform fileName metricType column version).fileExists = false) :
    (timelinePoint load platform fileName metricType column version).size = 0 := by
  rcases hload : load (csvUrl platform version) with _ | csvData
  · simp [timelinePoint, hload]
  · rcases hfind : findFileRow csvData (timelineColStep load platform column version)
        (normalizeFilePath fileName) with _ | row
    · simp [timelinePoint, hload, hfind]
    · simp [timelinePoint, hload, hfind] at h

theorem timelinePoint_load_failed (load : String → Option (List Row))
    (platform fileName metricType column version : String)
    (h : load (csvUrl platform version) = none) :
    timelinePoint load platform fileName metricType column version =
      { version := version, size := 0, fileExists := false } := by
  simp [timelinePoint, h]

theorem timelinePoint_not_found (load : String → Option (List Row))
    (platform fileName metricType column version : String) (csvData : List Row)
    (h : load (csvUrl platform version) = some csvData)
    (hfind : findFileRow csvData (timelineColStep load platform column version)
      (normalizeFilePath fileName) = none) :
    timelinePoint load platform fileName metricType column version =
      { version := version, size := 0, fileExists := false } := by
  simp [timelinePoint, h, hfind]

theorem timelineAux_spec (load : String → Option (List Row))
    (platform fileName metricType : String) :
    ∀ (versions : List String) (column : String),
      ((timelineAux load platform fileName metricType column versions).map
        (fun p => p.version) = versions) ∧
      (∀ p ∈ timelineAux load platform fileName metricType column versions,
        p.fileExists = false → p.size = 0) ∧
      (∀ (i : Nat) (v : String), versions[i]? = some v →
        load (csvUrl platform v) = none →
        (timelineAux load platform fileName metricType column versions)[i]? =
          some { version := v, size := 0, fileExists := false }) ∧
      (∀ (i : Nat) (v : String) (csvData : List Row), versions[i]? = some v →
        load (csvUrl platform v) = some csvData →
        findFileRow csvData
          (timelineColStep load platform
            (timelineColBefore load platform column versions i) v)
          (normalizeFilePath fileName) = none →
        (timelineAux load platform fileName metricType column versions)[i]? =
          some { version := v, size := 0, fileExists := false })
  | [], column => by
    refine ⟨rfl, ?_, ?_, ?_⟩
    · intro p hp
      cases hp
    · intro i v hv
      simp at hv
    · intro i v csvData hv
      simp at hv
  | version :: rest, column => by
    have ih := timelineAux_spec load platform fileName metricType rest
      (timelineColStep load platform column version)
    rw [timelineAux]
    refine ⟨?_, ?_, ?_, ?_⟩
    · rw [List.map_cons, timelinePoint_version, ih.1]
    · intro p hp hfe
      rcases List.mem_cons.mp hp with rfl | hmem
      · exact timelinePoint_absent_size load platform fileName metricType column version hfe
      · exact ih.2.1 p hmem hfe
    · intro i v hv hl
      cases i with
      | zero =>
        simp only [List.getElem?_cons_zero, Option.some.injEq] at hv
        subst hv
        rw [List.getElem?_cons_zero,
          timelinePoint_load_failed load platform fileName metricType column version hl]
      | succ j =>
        simp only [List.getElem?_cons_succ] at hv ⊢
        exact ih.2.2.1 j v hv hl
    · intro i v csvData hv hl hfind
      cases i with
      | zero =>
        simp only [List.getElem?_cons_zero, Option.some.injEq] at hv
        subst hv
        rw [List.getElem?_cons_zero,
          timelinePoint_not_found load platform fileName metricType column version csvData hl
            (by simpa [timelineColBefore] using hfind)]
      | succ j =>
        simp only [List.getElem?_cons_succ] at hv ⊢
        exact ih.2.2.2 j v csvData hv hl
          (by simpa [timelineColBefore] using hfind)

end DataProcessor

/-! ## Claim theorems -/

open DataProcessor

/-- C3, counterexample: `normalizeFilePath` is *not* idempotent on all
strings.  On `"./../a"` the first pass strips only the `./` (the
leading-`../` strip runs first and does not apply), exposing a fresh
`../` that a second pass then strips. -/
theorem normalizeFilePath_not_idempotent :
    normalizeFilePath (normalizeFilePath "./../a") ≠ normalizeFilePath "./../a" := by
  decide

/-- C3, amended: `normalizeFilePath("../src/a.cpp")` and
`normalizeFilePath("src/a.cpp")` both equal `"src/a.cpp"`, and
normalization is idempotent on every input whose normal form does not
itself begin with `../`, `./` or `/` (stripping can expose such a
prefix, as in the counterexample, and only then does idempotence
fail). -/
theorem normalizeFilePath_idempotent_unless_new_strippable :
    (normalizeFilePath "../src/a.cpp" = "src/a.cpp") ∧
    (normalizeFilePath "src/a.cpp" = "src/a.cpp") ∧
    (∀ p, List.isPrefixOf ['.', '.', '/'] (normalizeFilePath p).toList = false →
      List.isPrefixOf ['.', '/'] (normalizeFilePath p).toList = false →
      List.isPrefixOf ['/'] (normalizeFilePath p).toList = false →
      normalizeFilePath (normalizeFilePath p) = normalizeFilePath p) :=
  ⟨by decide, by decide,
    fun _ h1 h2 h3 => normalizeFilePath_eq_self _ h1 h2 h3⟩

theorem normalizeFilePath_idempotent_witness :
    normalizeFilePath (normalizeFilePath "../src/a.cpp") = normalizeFilePath "../src/a.cpp" :=
  normalizeFilePath_idempotent_unless_new_strippable.2.2 "../src/a.cpp"
    (by decide) (by decide) (by decide)

/-- C6: `compareVersions` treats versions as dot-separated sequences
of non-negative integers, zero-pads the shorter and compares
position-wise, the first unequal pair deciding the sign; the three
sample comparisons hold, and the induced relation is a total
(pre)order: reflexively zero, antisymmetric by negation, total,
transitive, and zero exactly on pad-equal component sequences. -/
theorem compareVersions_spec :
    (compareVersions "1.2.166" "1.10.0" < 0) ∧
    (compareVersions "1.2.0" "1.2" = 0) ∧
    (0 < compareVersions "2.0" "1.9.9") ∧
    (∀ v, compareVersions v v = 0) ∧
    (∀ v1 v2, compareVersions v2 v1 = -compareVersions v1 v2) ∧
    (∀ v1 v2, compareVersions v1 v2 ≤ 0 ∨ compareVersions v2 v1 ≤ 0) ∧
    (∀ v1 v2 v3, compareVersions v1 v2 ≤ 0 → compareVersions v2 v3 ≤ 0 →
      compareVersions v1 v3 ≤ 0) ∧
    (∀ v1 v2, compareVersions v1 v2 = 0 ↔
      padTo (parseVersion v1) (max (parseVersion v1).length (parseVersion v2).length) =
        padTo (parseVersion v2) (max (parseVersion v1).length (parseVersion v2).length)) :=
  ⟨by decide, by decide, by decide,
    compareVersions_self,
    compareVersions_neg,
    compareVersions_total,
    compareVersions_trans,
    compareVersions_eq_zero_iff⟩

theorem compareVersions_spec_witness :
    compareVersions "1.2" "1.10.0" ≤ 0 :=
  compareVersions_spec.2.2.2.2.2.2.1 "1.2" "1.2.166" "1.10.0" (by decide) (by decide)

namespace DataProcessor

theorem detectFileMoves_moves (m1 m2 : JsMap Entry) :
    (detectFileMoves m1 m2).moves = matchedMoves m1 m2 := rfl

theorem detectFileMoves_mergedData1 (m1 m2 : JsMap Entry) :
    (detectFileMoves m1 m2).mergedData1 =
      ((matchedMoves m1 m2).foldl processMove (m1, m2)).1 := rfl

theorem detectFileMoves_mergedData2 (m1 m2 : JsMap Entry) :
    (detectFileMoves m1 m2).mergedData2 =
      ((matchedMoves m1 m2).foldl processMove (m1, m2)).2 := rfl

end DataProcessor

unseal Rat.add Rat.mul Rat.inv Rat.sub in
/-- C1, failing input: the inner scan of `detectFileMoves` never
removes a matched after-entry from its candidate pool (`break` only
ends the scan for the current before-entry), so with before-entries
`a/f`, `b/f` (size 100 each) and the single after-entry `c/f`
(size 100) *both* before-entries are matched to the same after-key
`c/f`; the merge loop then collapses all three entries into one,
keyed `c/f`, carrying only `b/f`'s data — `a/f`'s size is lost.  The
matching is therefore not one-to-one, contradicting the claim. -/
theorem detectFileMoves_double_consumption :
    ((detectFileMoves
        [("a/f", { size := 100, compileUnit := "a/f", originalPath := "a/f" }),
         ("b/f", { size := 100, compileUnit := "b/f", originalPath := "b/f" })]
        [("c/f", { size := 100, compileUnit := "c/f", originalPath := "c/f" })]).moves.map
      (fun mv => mv.newKey) = ["c/f", "c/f"]) ∧
    (JsMap.keys (detectFileMoves
        [("a/f", { size := 100, compileUnit := "a/f", originalPath := "a/f" }),
         ("b/f", { size := 100, compileUnit := "b/f", originalPath := "b/f" })]
        [("c/f", { size := 100, compileUnit := "c/f", originalPath := "c/f" })]).mergedData1
      = ["c/f"]) ∧
    (JsMap.get (detectFileMoves
        [("a/f", { size := 100, compileUnit := "a/f", originalPath := "a/f" }),
         ("b/f", { size := 100, compileUnit := "b/f", originalPath := "b/f" })]
        [("c/f", { size := 100, compileUnit := "c/f", originalPath := "c/f" })]).mergedData1
      "c/f" =
      some { size := 100, compileUnit := "b/f", originalPath := "b/f",
             moveInfo := some { oldPath := "b/f", newPath := "c/f",
                                displayName := "f (moved from b to c)" } }) :=
  ⟨by decide, by decide, by decide⟩

/-- C4: every recorded move pairs entries with equal basenames and
`sizesAreSimilar` sizes; a move never pairs a zero size with a nonzero
one; and for the non-negative sizes the pipeline produces, similarity
is exactly `|size1−size2| / ((size1+size2)/2) ≤ 1/10`, two zeros
being similar and exactly one zero never. -/
theorem detectFileMoves_move_similarity :
    (∀ m1 m2 : JsMap Entry, ∀ mv ∈ (detectFileMoves m1 m2).moves,
      getBasename mv.oldKey = getBasename mv.newKey ∧
      sizesAreSimilar mv.oldValue.size mv.newValue.size = true ∧
      (mv.oldValue.size = 0 ↔ mv.newValue.size = 0)) ∧
    (∀ size1 size2 : Int, 0 ≤ size1 → 0 ≤ size2 →
      (sizesAreSimilar size1 size2 = true ↔
        ((size1 = 0 ∧ size2 = 0) ∨
         (size1 ≠ 0 ∧ size2 ≠ 0 ∧
           (((size1 - size2).natAbs : ℚ)) / (((size1 : ℚ) + (size2 : ℚ)) / 2) ≤ 1/10)))) := by
  constructor
  · intro m1 m2 mv hmv
    rw [detectFileMoves_moves] at hmv
    have h := matchedMoves_spec m1 m2 mv hmv
    exact ⟨h.2.2.2.2.1, h.2.2.2.2.2, sizesAreSimilar_zero_iff _ _ h.2.2.2.2.2⟩
  · exact sizesAreSimilar_iff

unseal Rat.add Rat.mul Rat.inv Rat.sub in
theorem detectFileMoves_move_similarity_witness :
    (getBasename "dir1/x.o" = getBasename "dir2/x.o" ∧
     sizesAreSimilar 1000 1040 = true ∧
     ((1000 : Int) = 0 ↔ (1040 : Int) = 0)) ∧
    (sizesAreSimilar 1000 1040 = true ↔
      (((1000 : Int) = 0 ∧ (1040 : Int) = 0) ∨
       ((1000 : Int) ≠ 0 ∧ (1040 : Int) ≠ 0 ∧
         ((((1000 : Int) - 1040).natAbs : ℚ)) /
           ((((1000 : Int) : ℚ) + ((1040 : Int) : ℚ)) / 2) ≤ 1/10))) := by
  constructor
  · exact detectFileMoves_move_similarity.1
      [("dir1/x.o", { size := 1000, compileUnit := "dir1/x.o", originalPath := "dir1/x.o" })]
      [("dir2/x.o", { size := 1040, compileUnit := "dir2/x.o", originalPath := "dir2/x.o" })]
      { oldKey := "dir1/x.o", newKey := "dir2/x.o",
        oldValue := { size := 1000, compileUnit := "dir1/x.o", originalPath := "dir1/x.o" },
        newValue := { size := 1040, compileUnit := "dir2/x.o", originalPath := "dir2/x.o" },
        basename := "x.o" }
      (by decide)
  · exact detectFileMoves_move_similarity.2 1000 1040 (by decide) (by decide)

/-- C10: a key present in both input maps keeps its exact entry in
both merged maps: moves only ever delete keys of the symmetric
difference and only ever insert at after-keys, which are never shared
keys. -/
theorem detectFileMoves_preserves_shared_keys (m1 m2 : JsMap Entry) (k : String)
    (v1 v2 : Entry) (hv1 : JsMap.get m1 k = some v1) (hv2 : JsMap.get m2 k = some v2) :
    JsMap.get (detectFileMoves m1 m2).mergedData1 k = some v1 ∧
    JsMap.get (detectFileMoves m1 m2).mergedData2 k = some v2 := by
  have hk1 : k ∈ JsMap.keys m1 := by
    rw [← JsMap.has_iff_mem_keys]
    simp [JsMap.has, hv1]
  have hk2 : k ∈ JsMap.keys m2 := by
    rw [← JsMap.has_iff_mem_keys]
    simp [JsMap.has, hv2]
  have hframe : ∀ mv ∈ matchedMoves m1 m2, mv.oldKey ≠ k ∧ mv.newKey ≠ k := by
    intro mv hmv
    have h := matchedMoves_spec m1 m2 mv hmv
    exact ⟨fun he => h.2.1 (he.symm ▸ hk2), fun he => h.2.2.2.1 (he.symm ▸ hk1)⟩
  have hfold := foldl_processMove_get_frame (matchedMoves m1 m2) (m1, m2) k hframe
  rw [detectFileMoves_mergedData1, detectFileMoves_mergedData2]
  exact ⟨hfold.1.trans hv1, hfold.2.trans hv2⟩

theorem detectFileMoves_preserves_shared_keys_witness :
    JsMap.get (detectFileMoves
        [("shared.cpp", { size := 5, compileUnit := "shared.cpp", originalPath := "shared.cpp" })]
        [("shared.cpp", { size := 7, compileUnit := "shared.cpp", originalPath := "shared.cpp" })]).mergedData1
      "shared.cpp" =
      some { size := 5, compileUnit := "shared.cpp", originalPath := "shared.cpp" } ∧
    JsMap.get (detectFileMoves
        [("shared.cpp", { size := 5, compileUnit := "shared.cpp", originalPath := "shared.cpp" })]
        [("shared.cpp", { size := 7, compileUnit := "shared.cpp", originalPath := "shared.cpp" })]).mergedData2
      "shared.cpp" =
      some { size := 7, compileUnit := "shared.cpp", originalPath := "shared.cpp" } :=
  detectFileMoves_preserves_shared_keys _ _ "shared.cpp" _ _ (by decide) (by decide)

unseal Rat.add Rat.mul Rat.inv Rat.sub in
/-- C7, counterexample: `displayName` is built from the directory
parts of the *normalized keys* `move.oldKey`/`move.newKey`, not from
the recorded `moveInfo.oldPath`/`moveInfo.newPath` (which carry the
raw `originalPath`s).  With an original path `"../src/a.cpp"`
(normalized key `"src/a.cpp"`) the recorded `moveInfo.oldPath` is
`"../src/a.cpp"` while the displayName says `"moved from src"`, not
`"moved from ../src"` as the claim's formula would require. -/
theorem detectFileMoves_displayName_not_from_originalPath :
    (JsMap.get (detectFileMoves
        [("src/a.cpp", { size := 100, compileUnit := "src/a.cpp", originalPath := "../src/a.cpp" })]
        [("lib/a.cpp", { size := 100, compileUnit := "lib/a.cpp", originalPath := "lib/a.cpp" })]).mergedData2
      "lib/a.cpp" =
      some { size := 100, compileUnit := "lib/a.cpp", originalPath := "lib/a.cpp",
             moveInfo := some { oldPath := "../src/a.cpp", newPath := "lib/a.cpp",
                                displayName := "a.cpp (moved from src to lib)" } }) ∧
    ("a.cpp (moved from src to lib)" ≠
      "a.cpp" ++ " (moved from " ++ getDirectoryPath "../src/a.cpp" ++ " to "
        ++ getDirectoryPath "lib/a.cpp" ++ ")") :=
  ⟨by decide, by decide⟩

/-- C7 (amended): provided no after-key is consumed by two moves (see
C1), every matched move ends with its before-key deleted from the
merged before-map and a single canonical entry under the after-key in
both merged maps, carrying `moveInfo = {oldPath, newPath,
displayName}` with the original paths as `oldPath`/`newPath` and
`displayName = "<basename> (moved from <dir(oldKey)> to
<dir(newKey)>)"` built from the *normalized keys*. -/
theorem detectFileMoves_canonical_entries (m1 m2 : JsMap Entry)
    (h1 : (JsMap.keys m1).Nodup) (h2 : (JsMap.keys m2).Nodup)
    (hnd : ((detectFileMoves m1 m2).moves.map (fun mv => mv.newKey)).Nodup) :
    ∀ mv ∈ (detectFileMoves m1 m2).moves,
      JsMap.get (detectFileMoves m1 m2).mergedData1 mv.oldKey = none ∧
      JsMap.get (detectFileMoves m1 m2).mergedData1 mv.newKey =
        some { size := mv.oldValue.size, compileUnit := mv.oldValue.compileUnit,
               originalPath := mv.oldValue.originalPath,
               moveInfo := some { oldPath := mv.oldValue.originalPath,
                                  newPath := mv.newValue.originalPath,
                                  displayName := mv.basename ++ " (moved from "
                                    ++ getDirectoryPath mv.oldKey ++ " to "
                                    ++ getDirectoryPath mv.newKey ++ ")" } } ∧
      JsMap.get (detectFileMoves m1 m2).mergedData2 mv.newKey =
        some { size := mv.newValue.size, compileUnit := mv.newValue.compileUnit,
               originalPath := mv.newValue.originalPath,
               moveInfo := some { oldPath := mv.oldValue.originalPath,
                                  newPath := mv.newValue.originalPath,
                                  displayName := mv.basename ++ " (moved from "
                                    ++ getDirectoryPath mv.oldKey ++ " to "
                                    ++ getDirectoryPath mv.newKey ++ ")" } } := by
  intro mv hmv
  rw [detectFileMoves_moves] at hmv hnd
  rw [detectFileMoves_mergedData1, detectFileMoves_mergedData2]
  have hA : ∀ mv' ∈ matchedMoves m1 m2,
      mv'.oldKey ∈ JsMap.keys m1 ∧ mv'.oldKey ∉ JsMap.keys m2 ∧
      mv'.newKey ∈ JsMap.keys m2 ∧ mv'.newKey ∉ JsMap.keys m1 := by
    intro mv' h'
    have s := matchedMoves_spec m1 m2 mv' h'
    exact ⟨s.1, s.2.1, s.2.2.1, s.2.2.2.1⟩
  exact foldl_processMove_spec m1 m2 (matchedMoves m1 m2) (m1, m2) h1 h2 hA hnd mv hmv

unseal Rat.add Rat.mul Rat.inv Rat.sub in
theorem detectFileMoves_canonical_entries_witness :
    JsMap.get (detectFileMoves
        [("dir1/x.o", { size := 1000, compileUnit := "dir1/x.o", originalPath := "dir1/x.o" })]
        [("dir2/x.o", { size := 1040, compileUnit := "dir2/x.o", originalPath := "dir2/x.o" })]).mergedData1
      "dir1/x.o" = none :=
  (detectFileMoves_canonical_entries _ _ (by decide) (by decide) (by decide)
    { oldKey := "dir1/x.o", newKey := "dir2/x.o",
      oldValue := { size := 1000, compileUnit := "dir1/x.o", originalPath := "dir1/x.o" },
      newValue := { size := 1040, compileUnit := "dir2/x.o", originalPath := "dir2/x.o" },
      basename := "x.o" }
    (by decide)).1

namespace DataProcessor

theorem processDataByMetric_eq (data1 data2 : List Row) (metricType : String)
    (t : Int) (col : String) :
    processDataByMetric data1 data2 metricType t col =
      sortComparisons (compareMerged
        (detectFileMoves (buildMap data1 metricType col)
          (buildMap data2 metricType col)).mergedData1
        (detectFileMoves (buildMap data1 metricType col)
          (buildMap data2 metricType col)).mergedData2
        metricType t) := rfl

end DataProcessor

/-- C2: in every entry the comparator emits, `changeType` is
`"unchanged"` exactly when `|difference|` is at most the caller's
threshold; past the threshold a positive difference is classified
`"increased"` and a negative one `"decreased"`. -/
theorem processDataByMetric_changeType (data1 data2 : List Row) (metricType : String)
    (t : Int) (filenameColumn : String) :
    ∀ e ∈ processDataByMetric data1 data2 metricType t filenameColumn,
      (e.changeType = "unchanged" ↔ |e.difference| ≤ t) ∧
      (t < |e.difference| →
        (0 < e.difference → e.changeType = "increased") ∧
        (e.difference < 0 → e.changeType = "decreased")) := by
  intro e he
  rw [processDataByMetric_eq, sortComparisons] at he
  have he2 := (List.perm_insertionSort _ _).mem_iff.mp he
  rw [compareMerged] at he2
  obtain ⟨k, hk, rfl⟩ := List.mem_map.mp he2
  exact changeType_split _ t

def sampleEntry : DataProcessor.ComparisonEntry :=
  { compileUnit := "a.cpp", size1 := 100, size2 := 150, difference := 50,
    percentChange := 50, changeType := "increased", metricType := "vmsize",
    isMoved := false, moveInfo := none, displayName := none }

unseal Rat.add Rat.mul Rat.inv Rat.sub in
theorem processDataByMetric_changeType_witness :
    (sampleEntry.changeType = "unchanged" ↔ |sampleEntry.difference| ≤ 10) ∧
    (10 < |sampleEntry.difference| →
      (0 < sampleEntry.difference → sampleEntry.changeType = "increased") ∧
      (sampleEntry.difference < 0 → sampleEntry.changeType = "decreased")) :=
  processDataByMetric_changeType
    [[("compileunits", "a.cpp"), ("vmsize", "100")]]
    [[("compileunits", "a.cpp"), ("vmsize", "150")]]
    "vmsize" 10 "compileunits" sampleEntry (by decide)

/-- C5: for any two (move-merged) maps whose keys are unique — as JS
`Map`s guarantee — the comparator emits exactly one entry per key of
the union of the two key sets, none for any other key; a key absent
on one side contributes size 0 on that side, and
`difference = size2 − size1`; the final sort permutes the entries, so
the per-key counts are unchanged by it. -/
theorem compareMerged_union (m1 m2 : JsMap DataProcessor.Entry) (metricType : String)
    (t : Int) (h1 : (JsMap.keys m1).Nodup) (h2 : (JsMap.keys m2).Nodup) :
    (∀ k : String,
      (DataProcessor.compareMerged m1 m2 metricType t).countP
        (fun e => e.compileUnit == k) =
        if k ∈ JsMap.keys m1 ∨ k ∈ JsMap.keys m2 then 1 else 0) ∧
    (∀ e ∈ DataProcessor.compareMerged m1 m2 metricType t,
      (JsMap.get m1 e.compileUnit = none → e.size1 = 0) ∧
      (∀ v, JsMap.get m1 e.compileUnit = some v → e.size1 = v.size) ∧
      (JsMap.get m2 e.compileUnit = none → e.size2 = 0) ∧
      (∀ v, JsMap.get m2 e.compileUnit = some v → e.size2 = v.size) ∧
      e.difference = e.size2 - e.size1) ∧
    (∀ k : String,
      (DataProcessor.sortComparisons
        (DataProcessor.compareMerged m1 m2 metricType t)).countP
        (fun e => e.compileUnit == k) =
        (DataProcessor.compareMerged m1 m2 metricType t).countP
          (fun e => e.compileUnit == k)) := by
  refine ⟨?_, ?_, ?_⟩
  · intro k
    rw [DataProcessor.compareMerged, List.countP_map]
    have hcomp : ((fun e => e.compileUnit == k) ∘
        (DataProcessor.mkComparison m1 m2 metricType t)) = (fun k' => k' == k) := by
      funext k'
      rfl
    rw [hcomp, DataProcessor.countP_beq_eq_one_iff
      (DataProcessor.unionKeys_nodup m1 m2 h1 h2) k]
    by_cases hmem : k ∈ DataProcessor.unionKeys m1 m2
    · rw [if_pos hmem, if_pos ((DataProcessor.mem_unionKeys m1 m2 k).mp hmem)]
    · rw [if_neg hmem,
        if_neg (fun hor => hmem ((DataProcessor.mem_unionKeys m1 m2 k).mpr hor))]
  · intro e he
    rw [DataProcessor.compareMerged] at he
    obtain ⟨k, hk, rfl⟩ := List.mem_map.mp he
    refine ⟨?_, ?_, ?_, ?_, rfl⟩
    · intro hnone
      have hnone' : JsMap.get m1 k = none := hnone
      show ((match JsMap.get m1 k with
        | some i => i.size
        | none => 0 : Int)) = (0 : Int)
      rw [hnone']
    · intro v hv
      have hv' : JsMap.get m1 k = some v := hv
      show ((match JsMap.get m1 k with
        | some i => i.size
        | none => 0 : Int)) = v.size
      rw [hv']
    · intro hnone
      have hnone' : JsMap.get m2 k = none := hnone
      show ((match JsMap.get m2 k with
        | some i => i.size
        | none => 0 : Int)) = (0 : Int)
      rw [hnone']
    · intro v hv
      have hv' : JsMap.get m2 k = some v := hv
      show ((match JsMap.get m2 k with
        | some i => i.size
        | none => 0 : Int)) = v.size
      rw [hv']
  · intro k
    exact (List.perm_insertionSort _ _).countP_eq _

unseal Rat.add Rat.mul Rat.inv Rat.sub in
theorem compareMerged_union_witness :
    (DataProcessor.compareMerged
        [("a.cpp", { size := 100, compileUnit := "a.cpp", originalPath := "a.cpp" })]
        [("b.cpp", { size := 70, compileUnit := "b.cpp", originalPath := "b.cpp" })]
        "vmsize" 10).countP (fun e => e.compileUnit == "b.cpp") =
      if "b.cpp" ∈ JsMap.keys
          ([("a.cpp", { size := 100, compileUnit := "a.cpp", originalPath := "a.cpp" })] :
            JsMap DataProcessor.Entry) ∨
        "b.cpp" ∈ JsMap.keys
          ([("b.cpp", { size := 70, compileUnit := "b.cpp", originalPath := "b.cpp" })] :
            JsMap DataProcessor.Entry)
      then 1 else 0 :=
  (compareMerged_union _ _ "vmsize" 10 (by decide) (by decide)).1 "b.cpp"

/-- C8: the parser returns, in line order, one header-to-field
mapping per data line whose quote-aware field count equals the header
count; every other data line contributes nothing (it is skipped, no
error is possible — the function is total); a comma inside an open
double quote is not a separator. -/
theorem parseCSV_filtering :
    (∀ text : String,
      CSVParser.parseCSV text =
        ((strSplitOn (strTrim text) '\n').drop 1).filterMap (fun line =>
          if (CSVParser.parseCSVLine line).length =
              (strSplitOn ((strSplitOn (strTrim text) '\n').headD "") ',').length
          then some (CSVParser.buildRow
            (strSplitOn ((strSplitOn (strTrim text) '\n').headD "") ',')
            (CSVParser.parseCSVLine line))
          else none)) ∧
    (∀ text : String,
      (CSVParser.parseCSV text).length =
        ((strSplitOn (strTrim text) '\n').drop 1).countP (fun line =>
          decide ((CSVParser.parseCSVLine line).length =
            (strSplitOn ((strSplitOn (strTrim text) '\n').headD "") ',').length))) ∧
    (CSVParser.parseCSVLine "a,\"b,c\",d" = ["a", "b,c", "d"]) := by
  refine ⟨?_, ?_, by decide⟩
  · intro text
    exact CSVParser.parseCSVRows_eq_filterMap _ _
  · intro text
    exact CSVParser.parseCSVRows_length _ _

/-- C9: the timeline has exactly one point per version of the
requested range, in the range's ascending comparator order; a point
that does not exist carries size 0; a failed per-version load or an
absent file row yields the `{size: 0, exists: false}` point at that
index rather than failing the call (the function is total). -/
theorem getFileTimeline_spec (load : String → Option (List Row)) (allVersions : List String)
    (fileName platform startVersion endVersion metricType : String) :
    ((DataProcessor.getFileTimeline load allVersions fileName platform startVersion
        endVersion metricType).map (fun p => p.version) =
      DataProcessor.getVersionsInRange allVersions startVersion endVersion) ∧
    List.Pairwise (fun a b => DataProcessor.compareVersions a b ≤ 0)
      (DataProcessor.getVersionsInRange allVersions startVersion endVersion) ∧
    (∀ p ∈ DataProcessor.getFileTimeline load allVersions fileName platform startVersion
        endVersion metricType,
      p.fileExists = false → p.size = 0) ∧
    (∀ (i : Nat) (v : String),
      (DataProcessor.getVersionsInRange allVersions startVersion endVersion)[i]? = some v →
      load (DataProcessor.csvUrl platform v) = none →
      (DataProcessor.getFileTimeline load allVersions fileName platform startVersion
        endVersion metricType)[i]? =
        some { version := v, size := 0, fileExists := false }) ∧
    (∀ (i : Nat) (v : String) (csvData : List Row),
      (DataProcessor.getVersionsInRange allVersions startVersion endVersion)[i]? = some v →
      load (DataProcessor.csvUrl platform v) = some csvData →
      DataProcessor.findFileRow csvData
        (DataProcessor.timelineColStep load platform
          (DataProcessor.timelineColBefore load platform "compileunits"
            (DataProcessor.getVersionsInRange allVersions startVersion endVersion) i) v)
        (DataProcessor.normalizeFilePath fileName) = none →
      (DataProcessor.getFileTimeline load allVersions fileName platform startVersion
        endVersion metricType)[i]? =
        some { version := v, size := 0, fileExists := false }) := by
  have h := DataProcessor.timelineAux_spec load platform fileName metricType
    (DataProcessor.getVersionsInRange allVersions startVersion endVersion) "compileunits"
  refine ⟨h.1, ?_, h.2.1, h.2.2.1, h.2.2.2⟩
  rw [DataProcessor.getVersionsInRange]
  haveI : IsTotal String (fun a b => DataProcessor.compareVersions a b ≤ 0) :=
    ⟨DataProcessor.compareVersions_total⟩
  haveI : IsTrans String (fun a b => DataProcessor.compareVersions a b ≤ 0) :=
    ⟨DataProcessor.compareVersions_trans⟩
  exact List.sorted_insertionSort _ _

theorem getFileTimeline_spec_witness :
    (DataProcessor.getFileTimeline (fun _ => none) ["1.0"] "a.cpp" "p" "1.0" "1.0"
      "vmsize")[0]? =
      some { version := "1.0", size := 0, fileExists := false } :=
  (getFileTimeline_spec (fun _ => none) ["1.0"] "a.cpp" "p" "1.0" "1.0" "vmsize").2.2.2.1
    0 "1.0" (by decide) rfl
